import Mathlib

/-!
Shallow embedding of the `windows_shortcuts` utility (`src/main.rs`): the
configuration store, the hotkey registry, the reload reconciliation performed
by `App::user_event`, and the per-wake event dispatch of `App::new_events`.
External collaborators (the `global_hotkey` combo parser and OS registration
API, the TOML parser, the filesystem) are modelled from the spec, as noted on
each definition.
-/

set_option maxHeartbeats 1000000
set_option maxRecDepth 65536

/-- Decidable equality of `Except` results, used to evaluate the embedded
operations on concrete inputs. -/
instance exceptDecEq {ε α : Type} [DecidableEq ε] [DecidableEq α] :
    DecidableEq (Except ε α)
  | Except.error e1, Except.error e2 => decidable_of_iff (e1 = e2) (by simp)
  | Except.error _, Except.ok _ => Decidable.isFalse (by simp)
  | Except.ok _, Except.error _ => Decidable.isFalse (by simp)
  | Except.ok a1, Except.ok a2 => decidable_of_iff (a1 = a2) (by simp)

/-- Key of a hotkey combo: a letter A-Z, a digit 0-9, or a function key F1-F12.
Modelled from the spec: the Key category of the combo grammar (§6). -/
inductive Key where
  | letter : Fin 26 → Key
  | digit : Fin 10 → Key
  | fkey : Fin 12 → Key
deriving DecidableEq

/-- Numeric code of a key, used to build the hotkey id. Digits map to 0-9,
letters to 100-125, function keys to 200-211; all codes are below 256. -/
def Key.code : Key → Nat
  | .letter n => 100 + n.val
  | .digit n => n.val
  | .fkey n => 200 + n.val

/-- A parsed key combination: a bitmask of modifiers (Ctrl=1, Shift=2, Alt=4,
Win=8) together with the key. Mirrors `global_hotkey::hotkey::HotKey`. -/
structure HotKey where
  mods : Nat
  key : Key
deriving DecidableEq

/-- Modelled from the spec: the OS-assigned hotkey id, an integer unique per
combo (§3, RegisteredHotkey). An injective encoding of (mods, key). -/
def HotKey.id (hk : HotKey) : Nat := hk.mods * 256 + hk.key.code

/-- Splits a character list on a separator, like `String.splitOn` with a
one-character separator: `splitOnChar c l` has one group per separator-free
run, keeping empty groups. -/
def splitOnChar (sep : Char) : List Char → List (List Char)
  | [] => [[]]
  | c :: rest =>
    match splitOnChar sep rest with
    | [] => if c = sep then [[], [c]] else [[c]]
    | g :: gs => if c = sep then [] :: g :: gs else (c :: g) :: gs

/-- Modifier token of the combo grammar (§6): Ctrl, Shift, Alt, Win/Super,
as modifier bitmasks. -/
def parseModifier : List Char → Option Nat
  | ['C', 't', 'r', 'l'] => some 1
  | ['S', 'h', 'i', 'f', 't'] => some 2
  | ['A', 'l', 't'] => some 4
  | ['W', 'i', 'n'] => some 8
  | ['S', 'u', 'p', 'e', 'r'] => some 8
  | _ => none

/-- Key token of the combo grammar (§6): A-Z, 0-9, F1-F12. -/
def parseKey : List Char → Option Key
  | [c] =>
    if h : 65 ≤ c.toNat ∧ c.toNat < 91 then some (Key.letter ⟨c.toNat - 65, by omega⟩)
    else if h : 48 ≤ c.toNat ∧ c.toNat < 58 then some (Key.digit ⟨c.toNat - 48, by omega⟩)
    else none
  | ['F', d] =>
    if h : 49 ≤ d.toNat ∧ d.toNat < 58 then some (Key.fkey ⟨d.toNat - 49, by omega⟩)
    else none
  | ['F', '1', d] =>
    if h : 48 ≤ d.toNat ∧ d.toNat < 51 then some (Key.fkey ⟨9 + (d.toNat - 48), by omega⟩)
    else none
  | _ => none

/-- Token list parser: every token but the last is a modifier, the last is the
key. Modelled from the spec: grammar `(Modifier+)*Key` (§6). -/
def parseTokens : List (List Char) → Nat → Option HotKey
  | [], _ => none
  | [k], mods => (parseKey k).map (fun kc => ⟨mods, kc⟩)
  | t :: rest, mods =>
    match parseModifier t with
    | some mm => parseTokens rest (mods ||| mm)
    | none => none

/-- Modelled from the spec: the external `HotKey::from_str` combo parser,
restricted to the documented grammar — tokens joined by `+`, modifiers from
Ctrl/Shift/Alt/Win, key from A-Z, 0-9, F1-F12 (§6). -/
def HotKey.fromStr (s : String) : Option HotKey :=
  parseTokens (splitOnChar '+' s.toList) 0

/-- Modelled from the spec: the OS global-hotkey subsystem state. `claimed`
holds combos owned by other processes (whose registration fails, §4.2);
`registered` holds combos currently registered by this process. -/
structure OS where
  claimed : List HotKey
  registered : List HotKey
deriving DecidableEq

/-- Modelled from the spec: `GlobalHotKeyManager::register` — fails when the
combo is already claimed (by another process or by us), otherwise adds the
combo to the OS registration set. -/
def OS.register (os : OS) (hk : HotKey) : Option OS :=
  if os.claimed.contains hk || os.registered.contains hk then none
  else some { os with registered := hk :: os.registered }

/-- Modelled from the spec: `GlobalHotKeyManager::unregister_all` — releases
every given combo from the OS registration set (§4.2). -/
def OS.unregister_all (os : OS) (keys : List HotKey) : OS :=
  { os with registered := os.registered.filter (fun hk => !(keys.contains hk)) }

/-- One configuration entry, `HotkeyConfig { shortcut, path }` in `main.rs`. -/
structure HotkeyConfig where
  shortcut : String
  path : String
deriving DecidableEq

/-- The parsed configuration, `Config { hotkeys }` in `main.rs`. -/
structure Config where
  hotkeys : List HotkeyConfig
deriving DecidableEq

/-- The `hotkeys_map: HashMap<u32, (HotKey, String)>` of `App`, as an
association list from id to (hotkey, target path). -/
abbrev HotkeysMap := List (Nat × HotKey × String)

/-- HashMap::insert — replaces any existing binding of the key. -/
def mapInsert (m : HotkeysMap) (k : Nat) (v : HotKey × String) : HotkeysMap :=
  (k, v) :: m.filter (fun p => p.1 != k)

/-- HashMap::get — the binding of the key, if present. -/
def mapGet (m : HotkeysMap) (k : Nat) : Option (HotKey × String) :=
  (m.find? (fun p => p.1 == k)).map (fun p => p.2)

/-- Targets (paths) stored in the map, the values' second components. -/
def targets (m : HotkeysMap) : List String :=
  m.map (fun p => p.2.2)

/-- Registration loop of `load_and_register_hotkeys` (`main.rs` 183-197): for
each entry, parse the shortcut (on failure log and skip), register with the OS
(on failure log and skip), on success insert `(hotkey.id(), (hotkey, path))`. -/
def registerLoop : OS → HotkeysMap → List HotkeyConfig → OS × HotkeysMap
  | os, m, [] => (os, m)
  | os, m, hc :: rest =>
    match HotKey.fromStr hc.shortcut with
    | none => registerLoop os m rest
    | some hk =>
      match os.register hk with
      | none => registerLoop os m rest
      | some os' => registerLoop os' (mapInsert m hk.id (hk, hc.path)) rest

/-- The successfully-registerable entries of a configuration, relative to an
OS state: those whose shortcut parses and whose registration succeeds when the
registration loop runs (spec §8, reload correctness). -/
def successfulEntries : OS → List HotkeyConfig → List HotkeyConfig
  | _, [] => []
  | os, hc :: rest =>
    match HotKey.fromStr hc.shortcut with
    | none => successfulEntries os rest
    | some hk =>
      match os.register hk with
      | none => successfulEntries os rest
      | some os' => hc :: successfulEntries os' rest

/-- Modelled from the spec: the filesystem, a map from path to file content
(§4.1). An association list from path to content. -/
abbrev FS := List (String × String)

/-- Existence test on the modelled filesystem, `Path::exists` in `main.rs`. -/
def FS.hasFile (fs : FS) (p : String) : Bool :=
  fs.any (fun e => e.1 == p)

/-- File read on the modelled filesystem, `fs::read_to_string` in `main.rs`. -/
def FS.read (fs : FS) (p : String) : Option String :=
  (fs.find? (fun e => e.1 == p)).map (fun e => e.2)

/-- File write on the modelled filesystem, `fs::write` in `main.rs`. -/
def FS.write (fs : FS) (p c : String) : FS :=
  (p, c) :: fs.filter (fun e => e.1 != p)

/-- Whitespace for line trimming (newlines are consumed by line splitting). -/
def isWs (c : Char) : Bool :=
  c = ' ' || c = '\t' || c = '\r'

/-- Trims leading and trailing whitespace from a character list. -/
def trimChars (cs : List Char) : List Char :=
  ((cs.dropWhile isWs).reverse.dropWhile isWs).reverse

/-- Strips one pair of enclosing double quotes from a basic TOML string. -/
def parseQuoted (cs : List Char) : Option (List Char) :=
  match cs with
  | '"' :: rest =>
    match rest.reverse with
    | '"' :: mid => if mid.contains '"' then none else some mid.reverse
    | _ => none
  | _ => none

/-- Classification of one configuration line: blank/comment, a `[[hotkeys]]`
table header, a `shortcut`/`path` key-value pair, or malformed. -/
inductive TomlLine where
  | blank
  | header
  | kvShortcut (v : String)
  | kvPath (v : String)
  | bad
deriving DecidableEq

/-- Classifies one line of the configuration document. -/
def classifyLine (l : List Char) : TomlLine :=
  let t := trimChars l
  if t.isEmpty then .blank
  else if t.head? = some '#' then .blank
  else if t = "[[hotkeys]]".toList then .header
  else
    match splitOnChar '=' t with
    | [k, v] =>
      match parseQuoted (trimChars v) with
      | none => .bad
      | some s =>
        if trimChars k = "shortcut".toList then .kvShortcut (String.mk s)
        else if trimChars k = "path".toList then .kvPath (String.mk s)
        else .bad
    | _ => .bad

/-- Closes a partially read `[[hotkeys]]` table: both required string fields
must be present, else the whole document is rejected. -/
def finishEntry : Option String × Option String → Option HotkeyConfig
  | (some s, some p) => some ⟨s, p⟩
  | _ => none

/-- Line-by-line parse of the configuration document: a sequence of
`[[hotkeys]]` tables, each carrying exactly one `shortcut` and one `path`.
Any malformed, misplaced or duplicated line rejects the whole document, as
does a document with no `hotkeys` entries (missing required field). -/
def parseLines : List (List Char) → Option (Option String × Option String) →
    List HotkeyConfig → Option (List HotkeyConfig)
  | [], none, acc => if acc.isEmpty then none else some acc.reverse
  | [], some cur, acc =>
    match finishEntry cur with
    | some e => some (e :: acc).reverse
    | none => none
  | l :: rest, cur, acc =>
    match classifyLine l with
    | .blank => parseLines rest cur acc
    | .header =>
      match cur with
      | none => parseLines rest (some (none, none)) acc
      | some c =>
        match finishEntry c with
        | some e => parseLines rest (some (none, none)) (e :: acc)
        | none => none
    | .kvShortcut v =>
      match cur with
      | some (none, p) => parseLines rest (some (some v, p)) acc
      | _ => none
    | .kvPath v =>
      match cur with
      | some (s, none) => parseLines rest (some (s, some v)) acc
      | _ => none
    | .bad => none

/-- Modelled from the spec: the external TOML parser used by
`load_or_create_config`, restricted to the documented schema — a top-level
array of tables `hotkeys` whose entries have string fields `shortcut` and
`path` (§6); a malformed document yields one error for the whole load. -/
def parseToml (content : String) : Option Config :=
  (parseLines (splitOnChar '\n' content.toList) none []).map Config.mk

/-- Error taxonomy of the configuration load (spec §7): file create/read
failure or malformed document. -/
inductive ConfigError where
  | ioError
  | parseError
deriving DecidableEq

/-- The default document written verbatim when the file is absent
(`main.rs` 211-224). -/
def default_config_content : String :=
  "\n# Example hotkeys. Use Ctrl, Shift, Alt, Win as modifiers.\n# Keys can be A-Z, 0-9, F1-F12.\n# For file paths, it is recommended to use forward slashes (e.g., \"C:/Users/YourUser/Documents/file.txt\")\n# or double backslashes (e.g., \"C:\\\\Users\\\\YourUser\\\\Documents\\\\file.txt\").\n\n[[hotkeys]]\nshortcut = \"Ctrl+Shift+A\"\npath = \"C:/Windows/System32/notepad.exe\"\n\n[[hotkeys]]\nshortcut = \"Ctrl+Shift+B\"\npath = \"https://www.google.com\"\n"

/-- The configuration the default document parses to: the two documented
example entries. -/
def default_config : Config :=
  ⟨[⟨"Ctrl+Shift+A", "C:/Windows/System32/notepad.exe"⟩,
    ⟨"Ctrl+Shift+B", "https://www.google.com"⟩]⟩

/-- Seeding step of `load_or_create_config` (`main.rs` 209-226): when the
path does not exist, the default document is written there first. -/
def ensureConfigFile (fs : FS) (path : String) : FS :=
  if FS.hasFile fs path then fs else FS.write fs path default_config_content

/-- Read-and-parse step of `load_or_create_config` (`main.rs` 228-229). -/
def readAndParse (fs : FS) (path : String) : Except ConfigError Config :=
  match FS.read fs path with
  | none => Except.error ConfigError.ioError
  | some content =>
    match parseToml content with
    | none => Except.error ConfigError.parseError
    | some config => Except.ok config

/-- Embeds `load_or_create_config` (`main.rs` 208-230): seed the default file
if absent, then read and parse; returns the possibly changed filesystem. -/
def load_or_create_config (fs : FS) (path : String) : FS × Except ConfigError Config :=
  (ensureConfigFile fs path, readAndParse (ensureConfigFile fs path) path)

/-- Embeds `load_and_register_hotkeys` (`main.rs` 177-199): load (or seed) the
configuration, then run the registration loop over its entries; a load error
is returned and leaves the registry untouched. -/
def load_and_register_hotkeys (fs : FS) (os : OS) (m : HotkeysMap) (config_path : String) :
    FS × OS × HotkeysMap × Except ConfigError Unit :=
  let l := load_or_create_config fs config_path
  match l.2 with
  | Except.error e => (l.1, os, m, Except.error e)
  | Except.ok config =>
    let r := registerLoop os m config.hotkeys
    (l.1, r.1, r.2, Except.ok ())

/-- Unregistration step of `App::user_event` (`main.rs` 48-53): collect the
hotkeys held in the map and release them with the OS, skipping the call when
there are none. -/
def unregisterStep (os : OS) (m : HotkeysMap) : OS :=
  let keys_to_unregister : List HotKey := m.map (fun p => p.2.1)
  if keys_to_unregister.isEmpty then os else OS.unregister_all os keys_to_unregister

/-- Embeds the `UserEvent::ConfigChanged` arm of `App::user_event`
(`main.rs` 44-60): unregister everything, clear the map, then reload and
re-register from the configuration file; a reload error is logged and the
loop continues with the cleared registry. -/
def user_event_ConfigChanged (fs : FS) (os : OS) (m : HotkeysMap) (config_path : String) :
    FS × OS × HotkeysMap :=
  let r := load_and_register_hotkeys fs (unregisterStep os m) [] config_path
  (r.1, r.2.1, r.2.2.1)

/-- The spec's `register_all` (§4.2): the registration loop run on a
configuration with an empty starting map. -/
def register_all (os : OS) (cfg : Config) : OS × HotkeysMap :=
  registerLoop os [] cfg.hotkeys

/-- The spec's `reload` (§4.2): `unregister_all` of the old registry, then
`register_all` of the new configuration. -/
def reload (os : OS) (m : HotkeysMap) (cfg : Config) : OS × HotkeysMap :=
  register_all (unregisterStep os m) cfg

/-- State of a hotkey event, `global_hotkey::HotKeyState`. -/
inductive HotKeyState where
  | Pressed
  | Released
deriving DecidableEq

/-- A hotkey press/release event, `global_hotkey::GlobalHotKeyEvent`. -/
structure GlobalHotKeyEvent where
  id : Nat
  state : HotKeyState
deriving DecidableEq

/-- Hotkey branch of `App::new_events` (`main.rs` 79-88): a pressed event
whose id is in the map opens the associated path; anything else is ignored.
Returns the list of `open::that` calls made. -/
def handleHotkeyEvent (m : HotkeysMap) (ev : GlobalHotKeyEvent) : List String :=
  if ev.state = HotKeyState.Pressed then
    match mapGet m ev.id with
    | some p => [p.2]
    | none => []
  else []

/-- The dispatcher-owned state of `App` (`main.rs` 36-41): the OS manager
state, the hotkeys map, the watched configuration path and the id of the Quit
menu item, together with the modelled filesystem. -/
structure AppState where
  fs : FS
  os : OS
  hotkeys_map : HotkeysMap
  config_path : String
  quit_item_id : String
deriving DecidableEq

/-- Pending events of the three independent sources drained each wake cycle:
`ConfigChanged` user events, the hotkey receiver, and the tray and menu
receivers (whose events carry an id compared against the Quit item). -/
structure Queues where
  changes : List Unit
  presses : List GlobalHotKeyEvent
  trays : List String
  menus : List String
deriving DecidableEq

/-- Observable reactions of one wake cycle: a registry reconciliation, an
`open::that` call, or a loop exit request. -/
inductive LoopAction where
  | reloadCfg
  | openPath (target : String)
  | quit
deriving DecidableEq

/-- Drains at most one pending `ConfigChanged` signal: `try_recv` semantics of
the user-event channel feeding `App::user_event` (`main.rs` 44-60). -/
def stepChange (s : AppState) : List Unit → AppState × List Unit × List LoopAction
  | [] => (s, [], [])
  | _ :: rest =>
    let r := user_event_ConfigChanged s.fs s.os s.hotkeys_map s.config_path
    ({ s with fs := r.1, os := r.2.1, hotkeys_map := r.2.2 }, rest, [LoopAction.reloadCfg])

/-- Drains at most one hotkey event, `GlobalHotKeyEvent::receiver().try_recv()`
(`main.rs` 79-88). -/
def stepPress (m : HotkeysMap) : List GlobalHotKeyEvent →
    List GlobalHotKeyEvent × List LoopAction
  | [] => ([], [])
  | ev :: rest => (rest, (handleHotkeyEvent m ev).map LoopAction.openPath)

/-- Drains at most one tray or menu event (`main.rs` 89-102): an event whose
id equals the Quit item's id exits the loop. -/
def stepQuit (quit_item_id : String) : List String → List String × List LoopAction
  | [] => ([], [])
  | i :: rest => (rest, if i = quit_item_id then [LoopAction.quit] else [])

/-- One wake cycle of the dispatch loop: each of the event sources is drained
non-blockingly, at most one event each, a pending `ConfigChanged` first
(`App::user_event`), then one hotkey event, then one tray and one menu event
(`App::new_events`). The relative placement of the `ConfigChanged` delivery
is modelled from the spec: the fixed priority order of §4.4. -/
def wakeCycle (s : AppState) (q : Queues) : AppState × Queues × List LoopAction :=
  let c := stepChange s q.changes
  let p := stepPress c.1.hotkeys_map q.presses
  let tr := stepQuit c.1.quit_item_id q.trays
  let me := stepQuit c.1.quit_item_id q.menus
  (c.1, ⟨c.2.1, p.1, tr.1, me.1⟩, c.2.2 ++ p.2 ++ tr.2 ++ me.2)

/-- Key-id invariant: every key of the hotkeys map is the id of the hotkey
stored under it. -/
def mapKeyId (m : HotkeysMap) : Prop :=
  ∀ k hk t, (k, (hk, t)) ∈ m → k = hk.id

/-- Every hotkey stored in the map is registered with the OS. -/
def mapRegistered (os : OS) (m : HotkeysMap) : Prop :=
  ∀ k hk t, (k, (hk, t)) ∈ m → hk ∈ os.registered

/-- Lock-step invariant (spec §3): a combo is registered with the OS exactly
when some id of the map is bound to it. -/
def lockStep (os : OS) (m : HotkeysMap) : Prop :=
  ∀ hk, hk ∈ os.registered ↔ ∃ k t, (k, (hk, t)) ∈ m

/-- The registry invariant: keys are the stored hotkeys' ids, and the map and
the OS registration set agree. -/
def registryInvariant (os : OS) (m : HotkeysMap) : Prop :=
  mapKeyId m ∧ lockStep os m

theorem Key.code_lt (k : Key) : k.code < 256 := by
  cases k with
  | letter n => have := n.isLt; simp only [Key.code]; omega
  | digit n => have := n.isLt; simp only [Key.code]; omega
  | fkey n => have := n.isLt; simp only [Key.code]; omega

theorem Key.code_inj {k1 k2 : Key} (h : k1.code = k2.code) : k1 = k2 := by
  cases k1 with
  | letter a =>
    cases k2 with
    | letter b =>
      have := a.isLt; have := b.isLt
      simp only [Key.code] at h
      exact congrArg Key.letter (Fin.ext (by omega))
    | digit b =>
      have := a.isLt; have := b.isLt
      simp only [Key.code] at h; omega
    | fkey b =>
      have := a.isLt; have := b.isLt
      simp only [Key.code] at h; omega
  | digit a =>
    cases k2 with
    | letter b =>
      have := a.isLt; have := b.isLt
      simp only [Key.code] at h; omega
    | digit b =>
      have := a.isLt; have := b.isLt
      simp only [Key.code] at h
      exact congrArg Key.digit (Fin.ext (by omega))
    | fkey b =>
      have := a.isLt; have := b.isLt
      simp only [Key.code] at h; omega
  | fkey a =>
    cases k2 with
    | letter b =>
      have := a.isLt; have := b.isLt
      simp only [Key.code] at h; omega
    | digit b =>
      have := a.isLt; have := b.isLt
      simp only [Key.code] at h; omega
    | fkey b =>
      have := a.isLt; have := b.isLt
      simp only [Key.code] at h
      exact congrArg Key.fkey (Fin.ext (by omega))

theorem HotKey.id_inj {a b : HotKey} (h : a.id = b.id) : a = b := by
  have ha := a.key.code_lt
  have hb := b.key.code_lt
  unfold HotKey.id at h
  have hm : a.mods = b.mods := by omega
  have hc : a.key.code = b.key.code := by omega
  cases a with
  | mk am ak =>
    cases b with
    | mk bm bk =>
      simp only at hm hc ⊢
      exact congrArg₂ HotKey.mk hm (Key.code_inj hc)

theorem OS.register_some {os os' : OS} {hk : HotKey}
    (h : os.register hk = some os') :
    os'.registered = hk :: os.registered ∧ os'.claimed = os.claimed ∧
      hk ∉ os.registered := by
  unfold OS.register at h
  split at h
  · exact absurd h (by simp)
  · next hcond =>
    rw [Bool.or_eq_true] at hcond
    push_neg at hcond
    injection h with h
    subst h
    refine ⟨rfl, rfl, ?_⟩
    intro hmem
    exact hcond.2 (by simpa using hmem)

theorem mapInsert_mem {m : HotkeysMap} {k : Nat} {v : HotKey × String}
    {p : Nat × HotKey × String} :
    p ∈ mapInsert m k v ↔ p = (k, v) ∨ (p ∈ m ∧ p.1 ≠ k) := by
  simp [mapInsert, List.mem_filter]

theorem mapInsert_fresh {m : HotkeysMap} {k : Nat} {v : HotKey × String}
    (h : ∀ p ∈ m, p.1 ≠ k) : mapInsert m k v = (k, v) :: m := by
  unfold mapInsert
  congr 1
  rw [List.filter_eq_self]
  intro p hp
  simpa using h p hp

theorem registerLoop_cons_parseFail {os : OS} {m : HotkeysMap} {hc : HotkeyConfig}
    {rest : List HotkeyConfig} (hp : HotKey.fromStr hc.shortcut = none) :
    registerLoop os m (hc :: rest) = registerLoop os m rest := by
  simp [registerLoop, hp]

theorem registerLoop_cons_regFail {os : OS} {m : HotkeysMap} {hc : HotkeyConfig}
    {rest : List HotkeyConfig} {hk : HotKey}
    (hp : HotKey.fromStr hc.shortcut = some hk) (hr : os.register hk = none) :
    registerLoop os m (hc :: rest) = registerLoop os m rest := by
  simp [registerLoop, hp, hr]

theorem registerLoop_cons_success {os os' : OS} {m : HotkeysMap} {hc : HotkeyConfig}
    {rest : List HotkeyConfig} {hk : HotKey}
    (hp : HotKey.fromStr hc.shortcut = some hk) (hr : os.register hk = some os') :
    registerLoop os m (hc :: rest) =
      registerLoop os' (mapInsert m hk.id (hk, hc.path)) rest := by
  simp [registerLoop, hp, hr]

theorem successfulEntries_cons_parseFail {os : OS} {hc : HotkeyConfig}
    {rest : List HotkeyConfig} (hp : HotKey.fromStr hc.shortcut = none) :
    successfulEntries os (hc :: rest) = successfulEntries os rest := by
  simp [successfulEntries, hp]

theorem successfulEntries_cons_regFail {os : OS} {hc : HotkeyConfig}
    {rest : List HotkeyConfig} {hk : HotKey}
    (hp : HotKey.fromStr hc.shortcut = some hk) (hr : os.register hk = none) :
    successfulEntries os (hc :: rest) = successfulEntries os rest := by
  simp [successfulEntries, hp, hr]

theorem successfulEntries_cons_success {os os' : OS} {hc : HotkeyConfig}
    {rest : List HotkeyConfig} {hk : HotKey}
    (hp : HotKey.fromStr hc.shortcut = some hk) (hr : os.register hk = some os') :
    successfulEntries os (hc :: rest) = hc :: successfulEntries os' rest := by
  simp [successfulEntries, hp, hr]

/-- A successful entry parses successfully. -/
theorem successfulEntries_parse (es : List HotkeyConfig) :
    ∀ os : OS, ∀ hc ∈ successfulEntries os es,
      ∃ hk, HotKey.fromStr hc.shortcut = some hk := by
  induction es with
  | nil => intro os hc h; simp [successfulEntries] at h
  | cons hc0 rest ih =>
    intro os hc h
    cases hp : HotKey.fromStr hc0.shortcut with
    | none =>
      rw [successfulEntries_cons_parseFail hp] at h
      exact ih os hc h
    | some hk =>
      cases hr : os.register hk with
      | none =>
        rw [successfulEntries_cons_regFail hp hr] at h
        exact ih os hc h
      | some os' =>
        rw [successfulEntries_cons_success hp hr] at h
        rcases List.mem_cons.1 h with heq | hmem
        · exact ⟨hk, heq ▸ hp⟩
        · exact ih os' hc hmem

/-- Under the key-id and registered invariants, a combo whose registration
just succeeded has no binding yet in the map. -/
theorem fresh_of_register {os : OS} {m : HotkeysMap} {hk : HotKey}
    (hki : mapKeyId m) (hreg : mapRegistered os m) (hnm : hk ∉ os.registered) :
    ∀ p ∈ m, p.1 ≠ hk.id := by
  rintro ⟨k, hk0, t⟩ hq hkeq
  have h1 := hki _ _ _ hq
  have h2 := hreg _ _ _ hq
  have : hk0 = hk := HotKey.id_inj (by simpa [h1] using hkeq)
  exact hnm (this ▸ h2)

/-- Membership in the map produced by the registration loop: the starting
entries plus one binding `(hk.id, (hk, path))` per successfully registered
entry. -/
theorem registerLoop_mem (es : List HotkeyConfig) :
    ∀ (os : OS) (m : HotkeysMap), mapKeyId m → mapRegistered os m →
    ∀ p : Nat × HotKey × String,
      (p ∈ (registerLoop os m es).2 ↔
        p ∈ m ∨ ∃ hc ∈ successfulEntries os es, ∃ hk,
          HotKey.fromStr hc.shortcut = some hk ∧ p = (hk.id, (hk, hc.path))) := by
  induction es with
  | nil => intro os m _ _ p; simp [registerLoop, successfulEntries]
  | cons hc rest ih =>
    intro os m hki hreg p
    cases hp : HotKey.fromStr hc.shortcut with
    | none =>
      rw [registerLoop_cons_parseFail hp, successfulEntries_cons_parseFail hp]
      exact ih os m hki hreg p
    | some hk =>
      cases hr : os.register hk with
      | none =>
        rw [registerLoop_cons_regFail hp hr, successfulEntries_cons_regFail hp hr]
        exact ih os m hki hreg p
      | some os' =>
        obtain ⟨hro, _, hnm⟩ := OS.register_some hr
        have fresh := fresh_of_register hki hreg hnm
        have hki' : mapKeyId (mapInsert m hk.id (hk, hc.path)) := by
          intro k1 hk1 t1 hmem
          rcases mapInsert_mem.1 hmem with heq | ⟨hin, _⟩
          · injection heq with e1 e2; injection e2 with e2 e3; subst e1 e2; rfl
          · exact hki _ _ _ hin
        have hreg' : mapRegistered os' (mapInsert m hk.id (hk, hc.path)) := by
          intro k1 hk1 t1 hmem
          rcases mapInsert_mem.1 hmem with heq | ⟨hin, _⟩
          · injection heq with e1 e2; injection e2 with e2 e3; subst e2
            rw [hro]; exact List.mem_cons_self _ _
          · rw [hro]; exact List.mem_cons_of_mem _ (hreg _ _ _ hin)
        rw [registerLoop_cons_success hp hr, successfulEntries_cons_success hp hr]
        rw [ih os' (mapInsert m hk.id (hk, hc.path)) hki' hreg' p]
        rw [mapInsert_fresh fresh]
        have hH : (∃ hk', HotKey.fromStr hc.shortcut = some hk' ∧
            p = (hk'.id, (hk', hc.path))) ↔ p = (hk.id, (hk, hc.path)) := by
          constructor
          · rintro ⟨hk', hfs, hpe⟩
            rw [hp] at hfs
            injection hfs with hfs
            subst hfs
            exact hpe
          · intro hpe
            exact ⟨hk, hp, hpe⟩
        simp only [List.mem_cons, exists_eq_or_imp]
        rw [hH]
        tauto

theorem lockStep_mapRegistered {os : OS} {m : HotkeysMap} (h : lockStep os m) :
    mapRegistered os m :=
  fun k hk t hmem => (h hk).2 ⟨k, t, hmem⟩

/-- The registration loop preserves the registry invariant. -/
theorem registerLoop_invariant (es : List HotkeyConfig) :
    ∀ (os : OS) (m : HotkeysMap), registryInvariant os m →
      registryInvariant (registerLoop os m es).1 (registerLoop os m es).2 := by
  induction es with
  | nil => intro os m h; simpa [registerLoop] using h
  | cons hc rest ih =>
    intro os m h
    obtain ⟨hki, hls⟩ := h
    cases hp : HotKey.fromStr hc.shortcut with
    | none =>
      rw [registerLoop_cons_parseFail hp]
      exact ih os m ⟨hki, hls⟩
    | some hk =>
      cases hr : os.register hk with
      | none =>
        rw [registerLoop_cons_regFail hp hr]
        exact ih os m ⟨hki, hls⟩
      | some os' =>
        obtain ⟨hro, _, hnm⟩ := OS.register_some hr
        have fresh := fresh_of_register hki (lockStep_mapRegistered hls) hnm
        rw [registerLoop_cons_success hp hr]
        refine ih os' (mapInsert m hk.id (hk, hc.path)) ⟨?_, ?_⟩
        · intro k1 hk1 t1 hmem
          rcases mapInsert_mem.1 hmem with heq | ⟨hin, _⟩
          · injection heq with e1 e2; injection e2 with e2 e3; subst e1 e2; rfl
          · exact hki _ _ _ hin
        · intro hk1
          rw [mapInsert_fresh fresh, hro]
          constructor
          · intro hmem
            rcases List.mem_cons.1 hmem with heq | hmem2
            · refine ⟨hk.id, hc.path, ?_⟩
              rw [heq]
              exact List.mem_cons_self _ _
            · obtain ⟨k, t, hkt⟩ := (hls hk1).1 hmem2
              exact ⟨k, t, List.mem_cons_of_mem _ hkt⟩
          · rintro ⟨k, t, hkt⟩
            rcases List.mem_cons.1 hkt with heq | hkt2
            · have he : hk1 = hk := by
                have := congrArg (fun q => q.2.1) heq
                simpa using this
              exact List.mem_cons.2 (Or.inl he)
            · exact List.mem_cons.2 (Or.inr ((hls hk1).2 ⟨k, t, hkt2⟩))

theorem unregisterStep_claimed (os : OS) (m : HotkeysMap) :
    (unregisterStep os m).claimed = os.claimed := by
  simp only [unregisterStep, OS.unregister_all]
  split <;> rfl

theorem unregisterStep_subset {os : OS} {m : HotkeysMap} {hk : HotKey}
    (h : hk ∈ (unregisterStep os m).registered) : hk ∈ os.registered := by
  simp only [unregisterStep, OS.unregister_all] at h
  split at h
  · exact h
  · exact (List.mem_filter.1 h).1

/-- A combo held by some entry of the map is gone after the unregistration
step of a reload. -/
theorem unregisterStep_removes {os : OS} {m : HotkeysMap} {k : Nat} {hk : HotKey}
    {t : String} (hmem : (k, (hk, t)) ∈ m) :
    hk ∉ (unregisterStep os m).registered := by
  intro h
  have hkeys : hk ∈ m.map (fun p => p.2.1) := List.mem_map.2 ⟨(k, (hk, t)), hmem, rfl⟩
  have hne : (m.map (fun p => p.2.1)).isEmpty = false := by
    cases m with
    | nil => simp at hmem
    | cons a l => simp [List.map]
  simp only [unregisterStep] at h
  rw [hne] at h
  simp only [Bool.false_eq_true, if_false, OS.unregister_all] at h
  have hcont := (List.mem_filter.1 h).2
  simp [hkeys] at hcont

/-- After unregistering everything the map holds, a lock-step OS state has no
registrations left. -/
theorem unregisterStep_registered {os : OS} {m : HotkeysMap} (h : lockStep os m) :
    (unregisterStep os m).registered = [] := by
  rw [List.eq_nil_iff_forall_not_mem]
  intro hk hmem
  obtain ⟨k, t, hkt⟩ := (h hk).1 (unregisterStep_subset hmem)
  exact unregisterStep_removes hkt hmem

/-- The reconciliation of a reload re-establishes the registry invariant from
the cleared state, whatever invariant held before. -/
theorem unregisterStep_invariant {os : OS} {m : HotkeysMap} (h : lockStep os m) :
    registryInvariant (unregisterStep os m) [] := by
  constructor
  · intro k hk t hmem; simp at hmem
  · intro hk
    rw [unregisterStep_registered h]
    simp

theorem user_event_of_loadError {fs : FS} {os : OS} {m : HotkeysMap}
    {path : String} {e : ConfigError}
    (h : (load_or_create_config fs path).2 = Except.error e) :
    user_event_ConfigChanged fs os m path =
      ((load_or_create_config fs path).1, unregisterStep os m, []) := by
  unfold user_event_ConfigChanged load_and_register_hotkeys
  simp only [h]

theorem user_event_of_loadOk {fs : FS} {os : OS} {m : HotkeysMap}
    {path : String} {cfg : Config}
    (h : (load_or_create_config fs path).2 = Except.ok cfg) :
    user_event_ConfigChanged fs os m path =
      ((load_or_create_config fs path).1,
        registerLoop (unregisterStep os m) [] cfg.hotkeys) := by
  unfold user_event_ConfigChanged load_and_register_hotkeys
  simp only [h]

theorem hasFile_write_self (fs : FS) (p c : String) :
    FS.hasFile (FS.write fs p c) p = true := by
  simp [FS.hasFile, FS.write]

theorem read_write_self (fs : FS) (p c : String) :
    FS.read (FS.write fs p c) p = some c := by
  simp [FS.read, FS.write]

theorem mapKeyId_nil : mapKeyId [] :=
  fun _ _ _ h => absurd h (List.not_mem_nil _)

theorem mapRegistered_nil (os : OS) : mapRegistered os [] :=
  fun _ _ _ h => absurd h (List.not_mem_nil _)

theorem registryInvariant_nil {os : OS} (h : os.registered = []) :
    registryInvariant os [] := by
  refine ⟨mapKeyId_nil, ?_⟩
  intro hk
  rw [h]
  simp

/-- Targets of a registration run from an empty map: exactly the paths of the
successfully registered entries. -/
theorem registerAll_targets (os : OS) (es : List HotkeyConfig) (t : String) :
    t ∈ targets (registerLoop os [] es).2 ↔
      t ∈ (successfulEntries os es).map HotkeyConfig.path := by
  constructor
  · intro h
    obtain ⟨p, hp, hpt⟩ := List.mem_map.1 h
    have hmem := (registerLoop_mem es os [] mapKeyId_nil (mapRegistered_nil os) p).1 hp
    rcases hmem with hin | ⟨hc, hcs, hk, _, hpe⟩
    · exact absurd hin (List.not_mem_nil _)
    · subst hpe
      exact List.mem_map.2 ⟨hc, hcs, by simpa using hpt⟩
  · intro h
    obtain ⟨hc, hcs, hpt⟩ := List.mem_map.1 h
    obtain ⟨hk, hfs⟩ := successfulEntries_parse es os hc hcs
    have hmem := (registerLoop_mem es os [] mapKeyId_nil (mapRegistered_nil os)
      (hk.id, (hk, hc.path))).2 (Or.inr ⟨hc, hcs, hk, hfs, rfl⟩)
    exact List.mem_map.2 ⟨(hk.id, (hk, hc.path)), hmem, by simpa using hpt⟩

/-- The registration loop preserves the key-id invariant of the map, with no
assumption on the OS state. -/
theorem registerLoop_keyId (es : List HotkeyConfig) :
    ∀ (os : OS) (m : HotkeysMap), mapKeyId m → mapKeyId (registerLoop os m es).2 := by
  induction es with
  | nil => intro os m h; simpa [registerLoop] using h
  | cons hc rest ih =>
    intro os m h
    cases hp : HotKey.fromStr hc.shortcut with
    | none => rw [registerLoop_cons_parseFail hp]; exact ih os m h
    | some hk =>
      cases hr : os.register hk with
      | none => rw [registerLoop_cons_regFail hp hr]; exact ih os m h
      | some os' =>
        rw [registerLoop_cons_success hp hr]
        apply ih
        intro k1 hk1 t1 hmem
        rcases mapInsert_mem.1 hmem with heq | ⟨hin, _⟩
        · injection heq with e1 e2; injection e2 with e2 e3; subst e1 e2; rfl
        · exact h _ _ _ hin

theorem ensureConfigFile_of_hasFile {fs : FS} {path : String}
    (h : FS.hasFile fs path = true) : ensureConfigFile fs path = fs := by
  simp [ensureConfigFile, h]

theorem ensureConfigFile_of_absent {fs : FS} {path : String}
    (h : FS.hasFile fs path = false) :
    ensureConfigFile fs path = FS.write fs path default_config_content := by
  simp [ensureConfigFile, h]

/-- The default document parses to the two documented example entries. -/
theorem parseToml_default : parseToml default_config_content = some default_config := by
  decide

theorem handleHotkeyEvent_len (m : HotkeysMap) (ev : GlobalHotKeyEvent) :
    (handleHotkeyEvent m ev).length ≤ 1 := by
  unfold handleHotkeyEvent
  split
  · split <;> simp
  · simp

theorem stepChange_queue (s : AppState) (l : List Unit) :
    (stepChange s l).2.1 = l.tail := by
  cases l <;> rfl

theorem stepPress_queue (m : HotkeysMap) (l : List GlobalHotKeyEvent) :
    (stepPress m l).1 = l.tail := by
  cases l <;> rfl

theorem stepQuit_queue (i : String) (l : List String) :
    (stepQuit i l).1 = l.tail := by
  cases l <;> rfl

theorem stepQuit_actions (i : String) (l : List String) :
    (∀ x ∈ (stepQuit i l).2, x = LoopAction.quit) ∧ (stepQuit i l).2.length ≤ 1 := by
  cases l with
  | nil => simp [stepQuit]
  | cons a r =>
    simp only [stepQuit]
    split <;> simp

/-- C1: for all configurations, a reload (unregister_all of the registry built
from the first configuration, then register_all of the second) yields a
registry whose set of targets is exactly the set of paths of the
successfully-registerable entries of the second configuration, with no
residual entries from the first. -/
theorem c1_reload_targets_exact (os0 : OS) (c1 c2 : Config) (t : String) :
    t ∈ targets (reload (register_all os0 c1).1 (register_all os0 c1).2 c2).2 ↔
      t ∈ (successfulEntries (unregisterStep (register_all os0 c1).1
            (register_all os0 c1).2) c2.hotkeys).map HotkeyConfig.path :=
  registerAll_targets (unregisterStep (register_all os0 c1).1 (register_all os0 c1).2)
    c2.hotkeys t

/-- C2: the registry invariant — every id of the map is bound to the hotkey it
identifies and the map agrees with the OS registration set in lock-step —
holds after the initial load from a fresh manager and is preserved by every
`ConfigChanged` reconciliation, across its unregister, clear, re-register
sequence, load failures included. -/
theorem c2_registry_lock_step :
    (∀ (os : OS) (es : List HotkeyConfig), os.registered = [] →
      registryInvariant (registerLoop os [] es).1 (registerLoop os [] es).2)
  ∧ (∀ (fs : FS) (os : OS) (m : HotkeysMap) (path : String), registryInvariant os m →
      registryInvariant (user_event_ConfigChanged fs os m path).2.1
        (user_event_ConfigChanged fs os m path).2.2) := by
  constructor
  · intro os es h0
    exact registerLoop_invariant es os [] (registryInvariant_nil h0)
  · intro fs os m path hinv
    cases hl : (load_or_create_config fs path).2 with
    | error e =>
      rw [user_event_of_loadError hl]
      exact unregisterStep_invariant hinv.2
    | ok cfg =>
      rw [user_event_of_loadOk hl]
      exact registerLoop_invariant cfg.hotkeys _ []
        (unregisterStep_invariant hinv.2)

theorem c2_registry_lock_step_witness :
    registryInvariant (registerLoop ⟨[], []⟩ [] [⟨"Ctrl+Shift+A", "b"⟩]).1
      (registerLoop ⟨[], []⟩ [] [⟨"Ctrl+Shift+A", "b"⟩]).2
  ∧ registryInvariant (user_event_ConfigChanged [] ⟨[], []⟩ [] "p").2.1
      (user_event_ConfigChanged [] ⟨[], []⟩ [] "p").2.2 :=
  ⟨c2_registry_lock_step.1 ⟨[], []⟩ [⟨"Ctrl+Shift+A", "b"⟩] rfl,
   c2_registry_lock_step.2 [] ⟨[], []⟩ [] "p" (registryInvariant_nil rfl)⟩

/-- C3: in a wake cycle, a Pressed event whose id is bound to target t in the
map triggers exactly one open(t) call; a Pressed event with an unbound id
triggers none and is silently ignored; a non-Pressed (released) event
triggers none. -/
theorem c3_press_dispatch (m : HotkeysMap) (ev : GlobalHotKeyEvent) :
    (∀ hk t, ev.state = HotKeyState.Pressed → mapGet m ev.id = some (hk, t) →
      handleHotkeyEvent m ev = [t])
  ∧ (ev.state = HotKeyState.Pressed → mapGet m ev.id = none →
      handleHotkeyEvent m ev = [])
  ∧ (ev.state ≠ HotKeyState.Pressed → handleHotkeyEvent m ev = []) := by
  refine ⟨?_, ?_, ?_⟩
  · intro hk t hs hg
    simp [handleHotkeyEvent, hs, hg]
  · intro hs hg
    simp [handleHotkeyEvent, hs, hg]
  · intro hs
    simp [handleHotkeyEvent, hs]

theorem c3_press_dispatch_witness :
    handleHotkeyEvent [(868, (⟨3, Key.letter 0⟩, "notepad.exe"))]
      ⟨868, HotKeyState.Pressed⟩ = ["notepad.exe"]
  ∧ handleHotkeyEvent [(868, (⟨3, Key.letter 0⟩, "notepad.exe"))]
      ⟨2, HotKeyState.Pressed⟩ = []
  ∧ handleHotkeyEvent [(868, (⟨3, Key.letter 0⟩, "notepad.exe"))]
      ⟨868, HotKeyState.Released⟩ = [] :=
  ⟨(c3_press_dispatch [(868, (⟨3, Key.letter 0⟩, "notepad.exe"))]
      ⟨868, HotKeyState.Pressed⟩).1 ⟨3, Key.letter 0⟩ "notepad.exe" rfl (by decide),
   (c3_press_dispatch [(868, (⟨3, Key.letter 0⟩, "notepad.exe"))]
      ⟨2, HotKeyState.Pressed⟩).2.1 rfl (by decide),
   (c3_press_dispatch [(868, (⟨3, Key.letter 0⟩, "notepad.exe"))]
      ⟨868, HotKeyState.Released⟩).2.2 (by decide)⟩

/-- Filesystem holding a configuration whose first entry has an unparseable
combo and whose second entry is valid, for the skip-on-error instance. -/
def skipDemoFs : FS :=
  [("config.toml",
    "[[hotkeys]]\nshortcut = \"NotAKey\"\npath = \"a\"\n\n[[hotkeys]]\nshortcut = \"Ctrl+Shift+A\"\npath = \"b\"")]

/-- C4: the registration loop processes entries independently — an entry whose
combo fails to parse, or whose OS registration fails, is skipped and leaves
the OS state and the map exactly as they were for the remaining entries; in
particular a configuration with one unparseable entry and one valid entry
loads without failure into a registry holding exactly the valid entry. -/
theorem c4_skip_on_error :
    (∀ (os : OS) (m : HotkeysMap) (hc : HotkeyConfig) (rest : List HotkeyConfig),
      HotKey.fromStr hc.shortcut = none →
      registerLoop os m (hc :: rest) = registerLoop os m rest)
  ∧ (∀ (os : OS) (m : HotkeysMap) (hc : HotkeyConfig) (rest : List HotkeyConfig)
      (hk : HotKey), HotKey.fromStr hc.shortcut = some hk → os.register hk = none →
      registerLoop os m (hc :: rest) = registerLoop os m rest)
  ∧ load_and_register_hotkeys skipDemoFs ⟨[], []⟩ [] "config.toml" =
      (skipDemoFs, ⟨[], [⟨3, Key.letter 0⟩]⟩,
        [(868, (⟨3, Key.letter 0⟩, "b"))], Except.ok ()) :=
  ⟨fun _ _ _ _ hp => registerLoop_cons_parseFail hp,
   fun _ _ _ _ _ hp hr => registerLoop_cons_regFail hp hr,
   by decide⟩

theorem c4_skip_on_error_witness :
    registerLoop ⟨[], []⟩ [] [⟨"NotAKey", "x"⟩, ⟨"Ctrl+Shift+A", "b"⟩] =
      registerLoop ⟨[], []⟩ [] [⟨"Ctrl+Shift+A", "b"⟩]
  ∧ registerLoop ⟨[], [⟨3, Key.letter 0⟩]⟩ [] [⟨"Ctrl+Shift+A", "b"⟩] =
      registerLoop ⟨[], [⟨3, Key.letter 0⟩]⟩ [] [] :=
  ⟨c4_skip_on_error.1 ⟨[], []⟩ [] ⟨"NotAKey", "x"⟩ [⟨"Ctrl+Shift+A", "b"⟩] (by decide),
   c4_skip_on_error.2.1 ⟨[], [⟨3, Key.letter 0⟩]⟩ [] ⟨"Ctrl+Shift+A", "b"⟩ []
     ⟨3, Key.letter 0⟩ (by decide) (by decide)⟩

/-- C5: each wake cycle drains the sources in the fixed priority order —
pending ConfigChanged signal first, then one hotkey event, then the tray and
menu events — consuming at most one event per source, and whenever a change
signal is pending its reconciliation is the first action of that very cycle,
whatever press burst is queued. -/
theorem c5_wake_priority (s : AppState) (q : Queues) :
    ((wakeCycle s q).2.1.changes = q.changes.tail
      ∧ (wakeCycle s q).2.1.presses = q.presses.tail
      ∧ (wakeCycle s q).2.1.trays = q.trays.tail
      ∧ (wakeCycle s q).2.1.menus = q.menus.tail)
  ∧ (q.changes ≠ [] → (wakeCycle s q).2.2.head? = some LoopAction.reloadCfg)
  ∧ (∃ a1 a2 a3, (wakeCycle s q).2.2 = a1 ++ (a2 ++ a3)
      ∧ (a1 = [] ∨ a1 = [LoopAction.reloadCfg])
      ∧ (∀ x ∈ a2, ∃ u, x = LoopAction.openPath u)
      ∧ (∀ x ∈ a3, x = LoopAction.quit)
      ∧ a1.length ≤ 1 ∧ a2.length ≤ 1 ∧ a3.length ≤ 2) := by
  obtain ⟨qc, qp, qt, qm⟩ := q
  refine ⟨?_, ?_, ?_⟩
  · simp [wakeCycle, stepChange_queue, stepPress_queue, stepQuit_queue]
  · intro h
    cases qc with
    | nil => exact absurd rfl h
    | cons u r => simp [wakeCycle, stepChange]
  · refine ⟨(stepChange s qc).2.2,
      (stepPress (stepChange s qc).1.hotkeys_map qp).2,
      (stepQuit (stepChange s qc).1.quit_item_id qt).2 ++
        (stepQuit (stepChange s qc).1.quit_item_id qm).2,
      ?_, ?_, ?_, ?_, ?_, ?_, ?_⟩
    · simp [wakeCycle]
    · cases qc <;> simp [stepChange]
    · cases qp with
      | nil => simp [stepPress]
      | cons ev r =>
        intro x hx
        simp only [stepPress] at hx
        obtain ⟨u, _, rfl⟩ := List.mem_map.1 hx
        exact ⟨u, rfl⟩
    · intro x hx
      rcases List.mem_append.1 hx with h1 | h1
      · exact (stepQuit_actions _ _).1 x h1
      · exact (stepQuit_actions _ _).1 x h1
    · cases qc <;> simp [stepChange]
    · cases qp with
      | nil => simp [stepPress]
      | cons ev r => simpa [stepPress] using handleHotkeyEvent_len (stepChange s qc).1.hotkeys_map ev
    · rw [List.length_append]
      have h1 := (stepQuit_actions (stepChange s qc).1.quit_item_id qt).2
      have h2 := (stepQuit_actions (stepChange s qc).1.quit_item_id qm).2
      omega

theorem c5_wake_priority_witness :
    (wakeCycle ⟨[], ⟨[], []⟩, [], "config.toml", "q"⟩
      ⟨[()], [⟨1, HotKeyState.Pressed⟩, ⟨2, HotKeyState.Pressed⟩], [], []⟩).2.2.head? =
      some LoopAction.reloadCfg :=
  (c5_wake_priority ⟨[], ⟨[], []⟩, [], "config.toml", "q"⟩
    ⟨[()], [⟨1, HotKeyState.Pressed⟩, ⟨2, HotKeyState.Pressed⟩], [], []⟩).2.1 (by decide)

/-- C6: `load_or_create_config` never overwrites an existing file, and on an
absent path it creates the file once — a second call on the resulting
filesystem changes nothing and returns the identical configuration result. -/
theorem c6_load_or_create_idempotent (fs : FS) (path : String) :
    (FS.hasFile fs path = true → (load_or_create_config fs path).1 = fs)
  ∧ (FS.hasFile fs path = false →
      FS.hasFile (load_or_create_config fs path).1 path = true
      ∧ load_or_create_config (load_or_create_config fs path).1 path =
          load_or_create_config fs path) := by
  constructor
  · intro h
    exact ensureConfigFile_of_hasFile h
  · intro h
    have hh : FS.hasFile (ensureConfigFile fs path) path = true := by
      rw [ensureConfigFile_of_absent h]
      exact hasFile_write_self fs path default_config_content
    refine ⟨hh, ?_⟩
    have he2 := ensureConfigFile_of_hasFile hh
    show (ensureConfigFile (ensureConfigFile fs path) path,
          readAndParse (ensureConfigFile (ensureConfigFile fs path) path) path) =
        (ensureConfigFile fs path, readAndParse (ensureConfigFile fs path) path)
    rw [he2]

theorem c6_load_or_create_idempotent_witness :
    (load_or_create_config [("config.toml", "x")] "config.toml").1 =
      [("config.toml", "x")]
  ∧ FS.hasFile (load_or_create_config [] "config.toml").1 "config.toml" = true
  ∧ load_or_create_config (load_or_create_config [] "config.toml").1 "config.toml" =
      load_or_create_config [] "config.toml" :=
  ⟨(c6_load_or_create_idempotent [("config.toml", "x")] "config.toml").1 (by decide),
   ((c6_load_or_create_idempotent [] "config.toml").2 (by decide)).1,
   ((c6_load_or_create_idempotent [] "config.toml").2 (by decide)).2⟩

/-- C7: when the file exists and its content is not a well-formed
configuration document, the load fails with a single whole-load parse error:
no entries of the malformed file are returned. -/
theorem c7_malformed_whole_load_error (fs : FS) (path content : String)
    (h1 : FS.hasFile fs path = true) (h2 : FS.read fs path = some content)
    (h3 : parseToml content = none) :
    (load_or_create_config fs path).2 = Except.error ConfigError.parseError := by
  show readAndParse (ensureConfigFile fs path) path = _
  rw [ensureConfigFile_of_hasFile h1]
  simp [readAndParse, h2, h3]

theorem c7_malformed_whole_load_error_witness :
    (load_or_create_config [("config.toml", "not a config")] "config.toml").2 =
      Except.error ConfigError.parseError :=
  c7_malformed_whole_load_error [("config.toml", "not a config")] "config.toml"
    "not a config" (by decide) (by decide) (by decide)

/-- C8: seeding a default configuration at an absent path and immediately
re-loading it yields exactly the two documented example entries. -/
theorem c8_default_round_trip (fs : FS) (path : String)
    (h : FS.hasFile fs path = false) :
    (load_or_create_config fs path).2 = Except.ok default_config
  ∧ default_config.hotkeys = [⟨"Ctrl+Shift+A", "C:/Windows/System32/notepad.exe"⟩,
      ⟨"Ctrl+Shift+B", "https://www.google.com"⟩]
  ∧ default_config.hotkeys.length = 2 := by
  refine ⟨?_, rfl, rfl⟩
  show readAndParse (ensureConfigFile fs path) path = _
  rw [ensureConfigFile_of_absent h]
  simp [readAndParse, read_write_self, parseToml_default]

theorem c8_default_round_trip_witness :
    (load_or_create_config [] "config.toml").2 = Except.ok default_config :=
  (c8_default_round_trip [] "config.toml" (by decide)).1

/-- C9: when the configuration load fails during a ConfigChanged reload, the
resulting registry is empty — every previously registered hotkey has been
removed, none is re-added, and the previous registry is not restored. -/
theorem c9_failed_reload_empty_registry (fs : FS) (os : OS) (m : HotkeysMap)
    (path : String) (e : ConfigError)
    (h : (load_or_create_config fs path).2 = Except.error e) :
    (user_event_ConfigChanged fs os m path).2.2 = []
  ∧ (∀ k hk t, (k, (hk, t)) ∈ m →
      hk ∉ (user_event_ConfigChanged fs os m path).2.1.registered)
  ∧ (∀ hk, hk ∈ (user_event_ConfigChanged fs os m path).2.1.registered →
      hk ∈ os.registered) := by
  rw [user_event_of_loadError h]
  refine ⟨rfl, ?_, ?_⟩
  · intro k hk t hmem
    exact unregisterStep_removes hmem
  · intro hk hmem
    exact unregisterStep_subset hmem

theorem c9_failed_reload_empty_registry_witness :
    (user_event_ConfigChanged [("config.toml", "not a config")] ⟨[], [⟨3, Key.letter 0⟩]⟩
      [(868, (⟨3, Key.letter 0⟩, "t"))] "config.toml").2.2 = [] :=
  (c9_failed_reload_empty_registry [("config.toml", "not a config")]
    ⟨[], [⟨3, Key.letter 0⟩]⟩ [(868, (⟨3, Key.letter 0⟩, "t"))] "config.toml"
    ConfigError.parseError (by decide)).1

/-- C10: every operation that mutates the hotkeys map preserves the property
that each map key equals the stored hotkey's own id — the registration loop
from any map satisfying it, and the full ConfigChanged reconciliation
unconditionally. -/
theorem c10_map_key_is_id :
    (∀ (os : OS) (m : HotkeysMap) (es : List HotkeyConfig), mapKeyId m →
      mapKeyId (registerLoop os m es).2)
  ∧ (∀ (fs : FS) (os : OS) (m : HotkeysMap) (path : String),
      mapKeyId (user_event_ConfigChanged fs os m path).2.2) := by
  constructor
  · intro os m es h
    exact registerLoop_keyId es os m h
  · intro fs os m path
    cases hl : (load_or_create_config fs path).2 with
    | error e =>
      rw [user_event_of_loadError hl]
      exact mapKeyId_nil
    | ok cfg =>
      rw [user_event_of_loadOk hl]
      exact registerLoop_keyId cfg.hotkeys _ [] mapKeyId_nil

theorem c10_map_key_is_id_witness :
    mapKeyId (registerLoop ⟨[], []⟩ [] [⟨"NotAKey", "x"⟩, ⟨"Ctrl+Shift+A", "b"⟩]).2 :=
  c10_map_key_is_id.1 ⟨[], []⟩ [] [⟨"NotAKey", "x"⟩, ⟨"Ctrl+Shift+A", "b"⟩] mapKeyId_nil

example : HotKey.fromStr "Ctrl+Shift+A" = some ⟨3, Key.letter 0⟩ := by decide
example : HotKey.fromStr "NotAKey" = none := by decide
example : HotKey.fromStr "Ctrl+Shift+B" = some ⟨3, Key.letter 1⟩ := by decide
example : HotKey.fromStr "Win+F12" = some ⟨8, Key.fkey 11⟩ := by decide
example : HotKey.fromStr "F3" = some ⟨0, Key.fkey 2⟩ := by decide
example : HotKey.fromStr "Alt+7" = some ⟨4, Key.digit 7⟩ := by decide
example : HotKey.fromStr "" = none := by decide
example : HotKey.fromStr "Ctrl+" = none := by decide
example : parseToml default_config_content = some default_config := by decide
example : parseToml "x" = none := by decide
example : parseToml "" = none := by decide
example : parseToml "[[hotkeys]]\nshortcut = \"NotAKey\"\npath = \"a\"\n\n[[hotkeys]]\nshortcut = \"Ctrl+Shift+A\"\npath = \"b\"" = some ⟨[⟨"NotAKey", "a"⟩, ⟨"Ctrl+Shift+A", "b"⟩]⟩ := by decide
example : parseToml "[[hotkeys]]\nshortcut = \"A\"" = none := by decide
example : load_and_register_hotkeys [("config.toml", "[[hotkeys]]\nshortcut = \"NotAKey\"\npath = \"a\"\n\n[[hotkeys]]\nshortcut = \"Ctrl+Shift+A\"\npath = \"b\"")] ⟨[], []⟩ [] "config.toml" = ([("config.toml", "[[hotkeys]]\nshortcut = \"NotAKey\"\npath = \"a\"\n\n[[hotkeys]]\nshortcut = \"Ctrl+Shift+A\"\npath = \"b\"")], ⟨[], [⟨3, Key.letter 0⟩]⟩, [(868, (⟨3, Key.letter 0⟩, "b"))], Except.ok ()) := by decide
